import Mathlib

/-
Verification development for the go-admin repository (pkg/admin).
The Go sources under pkg/admin are shallowly embedded as pure Lean
functions.  Machine integers are modelled as Nat or Int with explicit
range handling where the Go code can overflow; Go maps are modelled as
association lists where a later entry for a key overrides an earlier
one, matching map insertion order semantics.
-/

namespace GoAdmin

/-! ## Go string primitives

Models of the Go standard library string helpers used by pkg/admin:
strings.HasPrefix, strings.TrimPrefix, strings.HasSuffix,
strings.Split (single character separator), strconv.ParseUint and
strconv.Atoi.  All operate on the underlying character list.
-/

/-- strings.HasPrefix: does s begin with pre? -/
def goHasPre (pre s : String) : Bool :=
  pre.data.isPrefixOf s.data

/-- strings.TrimPrefix: drop pre from the front of s when present,
otherwise return s unchanged. -/
def goDropPre (s pre : String) : String :=
  if goHasPre pre s then String.mk (s.data.drop pre.data.length) else s

/-- strings.HasSuffix: does s end with suf? -/
def goHasSuf (s suf : String) : Bool :=
  suf.data.isSuffixOf s.data

/-- Split a character list at every occurrence of sep.  Mirrors the
behaviour of strings.Split for a one character separator: the empty
input yields one empty chunk. -/
def splitChars (sep : Char) : List Char → List (List Char)
  | [] => [[]]
  | c :: rest =>
    if c = sep then [] :: splitChars sep rest
    else
      match splitChars sep rest with
      | [] => [[c]]
      | h :: t => (c :: h) :: t

/-- strings.Split with a one character separator. -/
def goSplit (s : String) (sep : Char) : List String :=
  (splitChars sep s.data).map String.mk

/-- Numeric value of a digit string, most significant digit first. -/
def digitsVal (cs : List Char) : Nat :=
  cs.foldl (fun a c => a * 10 + (c.toNat - '0'.toNat)) 0

/-- Syntactic well-formedness for strconv.ParseUint input with base 10:
non-empty and made of decimal digits only (no sign permitted). -/
def goDigitsOk (s : String) : Bool :=
  !s.data.isEmpty && s.data.all Char.isDigit

/-- strconv.ParseUint(s, 10, 64) with the error discarded, as the Go
code does with uv, _ := strconv.ParseUint(val, 10, 64): a syntax error
returns 0, a range error (value not representable in 64 bits) returns
the maximum uint64 value. -/
def goParseUint (s : String) : Nat :=
  if goDigitsOk s then
    if digitsVal s.data < 2 ^ 64 then digitsVal s.data else 2 ^ 64 - 1
  else 0

/-- Whether strconv.ParseUint(s, 10, 64) succeeds (err == nil). -/
def goParseUintOk (s : String) : Bool :=
  goDigitsOk s && decide (digitsVal s.data < 2 ^ 64)

/-- Clamp to the int64 range, as strconv.ParseInt does on range error. -/
def clampI64 (v : Int) : Int :=
  if v > 9223372036854775807 then 9223372036854775807
  else if v < -9223372036854775808 then -9223372036854775808
  else v

/-- Syntactic check for a digit run used by goAtoi. -/
def digitsOkL (cs : List Char) : Bool :=
  !cs.isEmpty && cs.all Char.isDigit

/-- strconv.Atoi with the error discarded, as the Go code does with
page, _ := strconv.Atoi(...): an optional sign followed by digits
parses to the clamped int64 value; anything else yields 0. -/
def goAtoi (s : String) : Int :=
  match s.data with
  | [] => 0
  | c :: rest =>
    if c = '+' then
      if digitsOkL rest then clampI64 (Int.ofNat (digitsVal rest)) else 0
    else if c = '-' then
      if digitsOkL rest then clampI64 (-(Int.ofNat (digitsVal rest))) else 0
    else
      if digitsOkL (c :: rest) then clampI64 (Int.ofNat (digitsVal (c :: rest))) else 0

/-! ## Values, records and map-like association lists

A record models one reflected Go struct value: a list of attribute
name / value pairs.  Only the two value kinds the save path of
server.go distinguishes besides files are modelled: reflect.Uint
(64 bit) and strings (the reflect default branch).  The float64 branch
is not modelled (floating point).
-/

/-- A reflected attribute value. -/
inductive GoVal where
  | vUint : Nat → GoVal
  | vStr : String → GoVal
deriving DecidableEq

/-- fmt.Sprintf with the %v verb on a modelled value. -/
def goValString : GoVal → String
  | GoVal.vUint n => toString n
  | GoVal.vStr s => s

/-- A reflected struct value: attribute name to value, names unique in
any well-formed record. -/
def Rec : Type := List (String × GoVal)

instance : DecidableEq Rec := by
  unfold Rec; infer_instance

/-- reflect Value.FieldByName followed by Interface(): the value of the
named attribute, none when the record has no such attribute (the
invalid reflect.Value case). -/
def recGet (r : Rec) (k : String) : Option GoVal :=
  (List.find? (fun p => p.1 == k) r).map (fun p => p.2)

/-- Setting a named attribute through reflection: only an attribute
that exists is changed (FieldByName on a missing name yields a value
with CanSet() == false, which the code skips). -/
def recSet (r : Rec) (k : String) (v : GoVal) : Rec :=
  List.map (fun p => if p.1 = k then (k, v) else p) r

/-- Lookup in a Go-map modelled as an association list where a later
entry overrides an earlier one (map insertion semantics). -/
def mget {β : Type} : List (String × β) → String → Option β
  | [], _ => none
  | p :: rest, k =>
    match mget rest k with
    | some v => some v
    | none => if p.1 = k then some p.2 else none

/-- Concatenation of the entry lists produced per element; used to
reshape the map-building folds of the Go code. -/
def entsOf {α β : Type} (g : α → List β) : List α → List β
  | [] => []
  | a :: t => g a ++ entsOf g t

/-! ## Descriptor model (resource.go, declarations visible from server.go)

Field mirrors the admin.Field descriptor as server.go and utils.go use
it: Name, Label, Type, Readonly, Searchable, SearchResource and the
optional Decorator (value transform applied by itemToMap in utils.go).
-/

structure Field where
  Name : String
  Label : String
  Type' : String
  Readonly : Bool
  Searchable : Bool
  SearchResource : String
  Decorator : Option (GoVal → GoVal)

structure Association where
  Type' : String
  Name : String
  ResourceName : String
  ForeignKey : String

/-! ## Authorization gate -/

/-- A Permission row: (role, resource name, action). -/
structure Permission where
  Role : String
  ResourceName : String
  Action : String
deriving DecidableEq

/-- Modelled from the spec: Registry.IsAllowed is not under src/ (only
its test TestIsAllowed and its caller ServeHTTP are).  Spec section 4.5:
if role == "admin", always true; otherwise true iff a Permission record
exists matching (role, resourceName, action) exactly; no wildcard or
hierarchy matching; default deny.  perms stands for the Permission
table contents. -/
def IsAllowed (perms : List Permission) (role resourceName action : String) : Bool :=
  role == "admin" ||
    perms.any (fun p => p.Role == role && p.ResourceName == resourceName && p.Action == action)

/-! ## Request dispatch (server.go, ServeHTTP, lines 70-132)

The handlers themselves perform I/O; the embedding records which
handler a request is dispatched to (or that it is rejected) as an
Outcome value.  The registry keeps the page names, resource names and
the Permission table, which is all ServeHTTP consults for routing.
-/

structure Registry where
  PageNames : List String
  ResourceNames : List String
  Perms : List Permission

inductive Outcome where
  | serveUpload
  | loginPost
  | loginView
  | logoutDone
  | redirectLogin
  | searchAPI : String → Outcome
  | dashboard
  | pageHandler : String → Outcome
  | notFound
  | forbidden
  | doExport
  | doMemberAction
  | doCollectionAction
  | doBatchAction
  | doSave
  | doNew
  | doShow
  | doEdit
  | doDelete
  | doList
deriving DecidableEq

/-- server.go lines 102-103: the action is parts[1] when present and
non-empty, otherwise "list". -/
def actionOf (parts : List String) : String :=
  match parts with
  | _ :: a :: _ => if a = "" then "list" else a
  | _ => "list"

/-- server.go lines 105-131: the authorization gate followed by the
action switch.  The gate forbids when IsAllowed is false unless the
action is one of export, action, collection_action, batch_action. -/
def dispatchGate (reg : Registry) (role resourceName action : String) : Outcome :=
  if !(IsAllowed reg.Perms role resourceName action) && action != "export"
      && action != "action" && action != "collection_action" && action != "batch_action" then
    Outcome.forbidden
  else
    match action with
    | "export" => Outcome.doExport
    | "action" => Outcome.doMemberAction
    | "collection_action" => Outcome.doCollectionAction
    | "batch_action" => Outcome.doBatchAction
    | "save" => Outcome.doSave
    | "new" => Outcome.doNew
    | "show" => Outcome.doShow
    | "edit" => Outcome.doEdit
    | "delete" => Outcome.doDelete
    | _ => Outcome.doList

/-- server.go lines 90-131: after splitting the path, a custom Page of
that name wins, then resource lookup, then the gate and the switch. -/
def dispatchParts (reg : Registry) (role : String) (parts : List String) : Outcome :=
  let resourceName := parts.headD ""
  if reg.PageNames.contains resourceName then Outcome.pageHandler resourceName
  else if !(reg.ResourceNames.contains resourceName) then Outcome.notFound
  else dispatchGate reg role resourceName (actionOf parts)

/-- server.go lines 70-131 for a request whose path has already been
stripped of the /admin mount prefix (line 71).  userPresent models
user != nil after GetUserFromRequest. -/
def ServeHTTP (reg : Registry) (upath method : String) (userPresent : Bool) (role : String) :
    Outcome :=
  if goHasPre "/uploads/" upath then Outcome.serveUpload
  else if upath = "/login" then
    (if method = "POST" then Outcome.loginPost else Outcome.loginView)
  else if upath = "/logout" then Outcome.logoutDone
  else if !userPresent then Outcome.redirectLogin
  else if goHasSuf upath "/search" then
    Outcome.searchAPI ((goSplit (goDropPre upath "/") '/').headD "")
  else if upath = "" ∨ upath = "/" then Outcome.dashboard
  else dispatchParts reg role (goSplit (goDropPre upath "/") '/')

/-! ## Query builder (server.go, renderList lines 215-221) -/

/-- One accumulated query condition.  like f v denotes the clause
"f LIKE ?" with argument "%" ++ v ++ "%" (substring match); ge and le
denote "f >= ?" and "f <= ?" with argument v. -/
inductive Cond where
  | like : String → String → Cond
  | ge : String → String → Cond
  | le : String → String → Cond
deriving DecidableEq

/-- server.go lines 216-221: the filter loop.  Parameters are taken in
iteration order; an empty value is skipped entirely; the key prefix
decides the clause: q_ gives a LIKE, min_ a lower bound, max_ an upper
bound, anything else adds no clause. -/
def buildQuery : List (String × String) → List Cond
  | [] => []
  | (k, v) :: rest =>
    if v = "" then buildQuery rest
    else if goHasPre "q_" k then Cond.like (goDropPre k "q_") v :: buildQuery rest
    else if goHasPre "min_" k then Cond.ge (goDropPre k "min_") v :: buildQuery rest
    else if goHasPre "max_" k then Cond.le (goDropPre k "max_") v :: buildQuery rest
    else buildQuery rest

/-- Is needle a contiguous chunk of hay?  Substring semantics for the
LIKE %v% pattern. -/
def subChunk (needle : List Char) : List Char → Bool
  | [] => needle.isEmpty
  | c :: rest => needle.isPrefixOf (c :: rest) || subChunk needle rest

/-- Modelled from the spec: the model repository predicate semantics
(spec section 6: equality, LIKE, and comparisons, with data already
coerced to native attribute kinds).  LIKE with a %v% pattern is a
substring test on a text attribute; >= and <= compare numeric
attributes against the parsed bound. -/
def condMatches (r : Rec) : Cond → Bool
  | Cond.like f v =>
    (match recGet r f with
     | some (GoVal.vStr s) => subChunk v.data s.data
     | _ => false)
  | Cond.ge f v =>
    (match recGet r f with
     | some (GoVal.vUint n) => goParseUint v ≤ n
     | _ => false)
  | Cond.le f v =>
    (match recGet r f with
     | some (GoVal.vUint n) => n ≤ goParseUint v
     | _ => false)

/-- Rows of a collection that satisfy every accumulated condition. -/
def filterRows (conds : List Cond) (rows : List Rec) : List Rec :=
  rows.filter (fun r => conds.all (condMatches r))

/-! ## List pagination metadata (server.go, renderList lines 207-231)

totalCount is the int64 result of query.Count, always non-negative, so
it is carried as a Nat; perPage is Config.DefaultPerPage.  The page
number comes from strconv.Atoi and may be negative before clamping, so
it is an Int.  All Go arithmetic here is 64-bit: the offset product
(page - 1) * perPage wraps (page is request-controlled up to the int64
maximum, which Atoi accepts), and the model wraps it the same way.
The source computes totalPages as int(math.Ceil(float64(totalCount) /
float64(perPage))); the model computes the exact integer ceiling,
which coincides with the float64 path exactly when totalCount and
perPage are below 2 to the 53: both then convert to float64 exactly,
and the correctly rounded quotient differs from the rational quotient
by less than its value times 2 to the -53, which is below 1/perPage
for such counts, too little to cross an integer boundary, so the
ceilings agree.  The pagination theorem therefore carries those bounds
as hypotheses; outside them the model does not speak for the source. -/

/-- Two's-complement wrap into the signed 64-bit range, the behaviour
of Go int arithmetic on overflow. -/
def wrapI64 (v : Int) : Int :=
  (v + 9223372036854775808) % 18446744073709551616 - 9223372036854775808

structure ListMeta where
  page : Int
  perPage : Nat
  totalPages : Nat
  totalCount : Nat
  hasPrev : Bool
  hasNext : Bool
  offset : Int
  limit : Int
deriving DecidableEq

/-- server.go lines 207-208, 224, 227, 231: page parse and clamp,
totalPages, the Offset/Limit applied to the fetch, and the HasPrev /
HasNext flags placed in PageData.  page - 1 cannot wrap (page lies in
[1, int64 max] after the clamp) but the product with perPage can, so
it passes through wrapI64.  totalPages is the exact ceiling, faithful
to the float64 source for counts below 2 to the 53 as argued above. -/
def renderListMeta (pageParam : String) (perPage totalCount : Nat) : ListMeta :=
  let page0 := goAtoi pageParam
  let page := if page0 < 1 then 1 else page0
  let totalPages := (totalCount + perPage - 1) / perPage
  { page := page
    perPage := perPage
    totalPages := totalPages
    totalCount := totalCount
    hasPrev := decide (1 < page)
    hasNext := decide (page < (totalPages : Int))
    offset := wrapI64 ((page - 1) * (perPage : Int))
    limit := (perPage : Int) }

/-! ## Item projection (utils.go, itemToMap lines 18-34)

utils.go holds the decorator-aware itemToMap; the copy at the bottom of
server.go (lines 366-372) is the stale pre-decorator duplicate of the
same method and is superseded by utils.go. -/

/-- The entry the field loop of itemToMap contributes for one field:
nothing when the attribute is missing, otherwise the decorated (or raw)
value under the field name. -/
def itemEntry (item : Rec) (f : Field) : List (String × GoVal) :=
  match recGet item f.Name with
  | some v =>
    [(f.Name, match f.Decorator with
              | some d => d v
              | none => v)]
  | none => []

/-- The trailing m[\x22ID\x22] assignment of itemToMap. -/
def idEntry (item : Rec) : List (String × GoVal) :=
  match recGet item "ID" with
  | some v => [("ID", v)]
  | none => []

/-- utils.go lines 18-34: project an item through the given fields into
the rendered map, applying each Decorator when present, then re-insert
the raw ID. -/
def itemToMap (fields : List Field) (item : Rec) : List (String × GoVal) :=
  (fields.foldl (fun m f =>
    match recGet item f.Name with
    | some v =>
      (match f.Decorator with
       | some d => m ++ [(f.Name, d v)]
       | none => m ++ [(f.Name, v)])
    | none => m) []) ++ idEntry item

/-- utils.go lines 12-16: map a fetched slice through itemToMap. -/
def sliceToMap (fields : List Field) (rows : List Rec) : List (List (String × GoVal)) :=
  rows.map (itemToMap fields)

/-! ## Association resolution on the form view (server.go, renderForm
lines 240-254) -/

/-- The data renderForm stores per association name: the target
resource and, when eagerly expanded, the option list. -/
structure AssociationData where
  ResourceName : String
  Options : List (List (String × GoVal))
deriving DecidableEq

/-- The assocData entry contributed by one association in the loop of
renderForm lines 241-253: for a BelongsTo association, when the target
table count is below Config.SearchThreshold all target rows are fetched
and projected through the target resource fields as Options; otherwise
only the target resource is recorded.  resFields and table give the
registered fields and backing rows of a resource name. -/
def assocEntry (resFields : String → List Field) (table : String → List Rec)
    (threshold : Int) (assoc : Association) : List (String × AssociationData) :=
  if assoc.Type' = "BelongsTo" then
    let trows := table assoc.ResourceName
    if (trows.length : Int) < threshold then
      [(assoc.Name, ⟨assoc.ResourceName, sliceToMap (resFields assoc.ResourceName) trows⟩)]
    else [(assoc.Name, ⟨assoc.ResourceName, []⟩)]
  else []

/-- The assocData entry contributed by one edit-view field in the loop
of renderForm line 254: a searchable field with a target resource is
recorded as search-driven. -/
def searchEntry (f : Field) : List (String × AssociationData) :=
  if f.Searchable && f.SearchResource != "" then [(f.Name, ⟨f.SearchResource, []⟩)] else []

/-- server.go lines 240-254: the assocData map renderForm builds, as an
association list with later entries overriding earlier ones. -/
def renderFormAssocs (assocs : List Association) (fields : List Field)
    (resFields : String → List Field) (table : String → List Rec)
    (threshold : Int) : List (String × AssociationData) :=
  (assocs.foldl (fun m assoc => m ++ assocEntry resFields table threshold assoc) []) ++
    entsOf searchEntry fields

/-! ## Save flow (server.go, handleSave lines 261-291)

The persistent store is external (GORM); spec section 6 requires
find-by-identifier, create and update.  AdminDB models it: a list of
rows, the next identifier handed out on create, and the append-only
audit trail. -/

structure AuditRec where
  User : String
  ResourceName : String
  RecordID : String
  Kind : String
  Description : String
deriving DecidableEq

structure AdminDB where
  rows : List Rec
  nextId : Nat
  audits : List AuditRec
deriving DecidableEq

/-- Does the row carry the given primary key? -/
def rowHasID (r : Rec) (n : Nat) : Bool :=
  match recGet r "ID" with
  | some (GoVal.vUint k) => k == n
  | _ => false

/-- Modelled from the spec: find-by-identifier of the model repository
(spec section 6), as reg.DB.First(model, id) uses it: the row whose
primary key equals the submitted identifier string. -/
def dbFirst (db : AdminDB) (id : String) : Option Rec :=
  db.rows.find? (fun r => rowHasID r (goParseUint id))

/-- Modelled from the spec: the create and update operations of the
model repository (spec section 6), as reg.DB.Save(model) uses them: a
zero identifier creates a fresh row under the next identifier and the
saved value carries the assigned identifier; a non-zero identifier
updates the row with that identifier in place. -/
def dbSave (db : AdminDB) (m : Rec) : AdminDB × Rec :=
  match recGet m "ID" with
  | some (GoVal.vUint 0) =>
    (⟨db.rows ++ [recSet m "ID" (GoVal.vUint db.nextId)], db.nextId + 1, db.audits⟩,
      recSet m "ID" (GoVal.vUint db.nextId))
  | some (GoVal.vUint (Nat.succ n)) =>
    (⟨db.rows.map (fun r => if rowHasID r (Nat.succ n) then m else r), db.nextId, db.audits⟩, m)
  | _ => (db, m)

/-- Modelled from the spec: Registry.RecordAction is not under src/
(only its callers are).  Spec section 3: an Audit Action Record
(user, resourceName, recordID, actionKind, description) is appended to
the append-only audit trail. -/
def recordAction (userName resName recID kind desc : String) (db : AdminDB) : AdminDB :=
  ⟨db.rows, db.nextId, db.audits ++ [⟨userName, resName, recID, kind, desc⟩]⟩

/-- server.go lines 267-284 for one writable field: skip readonly
fields and missing attributes; image and file kinds take the uploaded
file path (none in the modelled form, so the attribute is unchanged,
matching the err != nil skip); a uint attribute gets the ParseUint
coercion of the submitted string, a string attribute the string
itself.  form gives r.FormValue. -/
def setFormField (form : String → String) (m : Rec) (f : Field) : Rec :=
  if f.Readonly then m
  else
    match recGet m f.Name with
    | none => m
    | some old =>
      if f.Type' == "image" || f.Type' == "file" then m
      else
        match old with
        | GoVal.vUint _ => recSet m f.Name (GoVal.vUint (goParseUint (form f.Name)))
        | GoVal.vStr _ => recSet m f.Name (GoVal.vStr (form f.Name))

/-- server.go lines 261-291: determine create-versus-update from the
submitted ID, load the existing row for an update, coerce every
writable field from the form, persist through dbSave, then append
exactly one audit record tagged Create or Update.  zeroRec is the
zero value reflect.New produces for the resource model. -/
def handleSave (fields : List Field) (zeroRec : Rec) (resName userName : String)
    (form : String → String) (db : AdminDB) : AdminDB :=
  let id := form "ID"
  let model0 := if id != "" && id != "0" then (dbFirst db id).getD zeroRec else zeroRec
  let model1 := fields.foldl (fun m f => setFormField form m f) model0
  let saved := dbSave db model1
  let newID := goValString ((recGet saved.2 "ID").getD (GoVal.vStr ""))
  let act := if id != "" && id != "0" then "Update" else "Create"
  recordAction userName resName newID act "Saved from form" saved.1

/-! ## Export (server.go, handleExport lines 301-316) -/

/-- One CSV cell: fmt.Sprintf %v of the raw attribute value.  A field
name absent from the model would make the Go code panic; the modelled
resources always carry their declared fields. -/
def exportCell (r : Rec) (f : Field) : String :=
  match recGet r f.Name with
  | some v => goValString v
  | none => ""

/-- server.go lines 301-316: the CSV rows written by handleExport: the
field labels in declaration order, then one row per row of the backing
table.  The request is not consulted: no filter, scope or pagination is
applied (the query is reg.DB.Model(res.Model) directly). -/
def handleExport (fields : List Field) (rows : List Rec) : List (List String) :=
  (fields.map (fun f => f.Label)) :: rows.map (fun r => fields.map (fun f => exportCell r f))

/-- The export output as the claim states it: the header, then one row
per record matching the current filters.  This definition follows the
words of spec section 4.6 and exists to be compared with handleExport,
which is built from the source. -/
def exportFilteredSpec (fields : List Field) (conds : List Cond) (rows : List Rec) :
    List (List String) :=
  (fields.map (fun f => f.Label)) ::
    (filterRows conds rows).map (fun r => fields.map (fun f => exportCell r f))

/-! ## Concrete instances

Concrete registries, resources and records used to evaluate the
theorems on closed inputs. -/

/-- The Permission table of the TestIsAllowed scenario. -/
def permsEditor : List Permission := [⟨"editor", "Product", "edit"⟩]

/-- A registry with a page named reports and a resource named Product,
and an empty Permission table. -/
def regGate : Registry := ⟨["reports"], ["Product"], []⟩

/-- A registry where a page and a resource share the name Product. -/
def regShadow : Registry := ⟨["Product"], ["Product"], []⟩

/-- A plain text field. -/
def fName : Field := ⟨"Name", "Name", "text", false, false, "", none⟩

/-- A numeric (uint-backed) writable field. -/
def fQty : Field := ⟨"Qty", "Qty", "number", false, false, "", none⟩

/-- The zero value of a model with an ID, a Name and a Qty. -/
def zeroProduct : Rec := [("ID", GoVal.vUint 0), ("Name", GoVal.vStr ""), ("Qty", GoVal.vUint 0)]

/-- An existing stored product row with identifier 7. -/
def storedProduct : Rec :=
  [("ID", GoVal.vUint 7), ("Name", GoVal.vStr "Old"), ("Qty", GoVal.vUint 3)]

/-- A database holding the one stored product. -/
def dbOne : AdminDB := ⟨[storedProduct], 8, []⟩

/-- An empty database whose next identifier is 1. -/
def dbEmpty : AdminDB := ⟨[], 1, []⟩

/-- A creating form submission: no identifier, a name and a quantity. -/
def formCreate : String → String :=
  fun k => if k = "Name" then "Widget" else if k = "Qty" then "4" else ""

/-- An updating form submission against identifier 7. -/
def formUpdate : String → String :=
  fun k => if k = "ID" then "7" else if k = "Name" then "New" else if k = "Qty" then "9" else ""

/-- A form whose Qty value is 2 to the power 64, one past the uint64
range. -/
def formBig : String → String :=
  fun k => if k = "Qty" then "18446744073709551616" else ""

/-- A decorator incrementing a numeric value. -/
def incrVal : GoVal → GoVal :=
  fun v => match v with
           | GoVal.vUint n => GoVal.vUint (n + 1)
           | x => x

/-- A decorator doubling a numeric value. -/
def dblVal : GoVal → GoVal :=
  fun v => match v with
           | GoVal.vUint n => GoVal.vUint (2 * n)
           | x => x

/-- A field named ID carrying a decorator. -/
def fldID : Field := ⟨"ID", "ID", "number", false, false, "", some incrVal⟩

/-- A decorated price field. -/
def fldPrice : Field := ⟨"Price", "Price", "number", false, false, "", some dblVal⟩

/-- An item whose only attribute is the identifier 5. -/
def itemIdOnly : Rec := [("ID", GoVal.vUint 5)]

/-- An item with a price of 10 and identifier 1. -/
def itemPriced : Rec := [("Price", GoVal.vUint 10), ("ID", GoVal.vUint 1)]

/-- A BelongsTo association from a book to its author collection. -/
def assocAuthor : Association := ⟨"BelongsTo", "author", "authors", "author_id"⟩

/-- Registered fields per resource name for the association scenario. -/
def resFieldsAuthors : String → List Field := fun _ => [fName]

/-- Backing rows per resource name: two authors. -/
def tableAuthors : String → List Rec :=
  fun n =>
    if n = "authors" then
      [[("ID", GoVal.vUint 1), ("Name", GoVal.vStr "Ann")],
       [("ID", GoVal.vUint 2), ("Name", GoVal.vStr "Bob")]]
    else []

/-- Two rows of which only the first matches the q_Name=abc filter. -/
def rowsExport : List Rec :=
  [[("Name", GoVal.vStr "abc"), ("ID", GoVal.vUint 1)],
   [("Name", GoVal.vStr "xyz"), ("ID", GoVal.vUint 2)]]

/-- A list request parameter set carrying one substring filter. -/
def paramsExport : List (String × String) := [("q_Name", "abc")]

/-! ## Helper lemmas -/

theorem mget_append {β : Type} (a b : List (String × β)) (k : String) :
    mget (a ++ b) k =
      match mget b k with
      | some v => some v
      | none => mget a k := by
  induction a with
  | nil =>
    simp only [List.nil_append]
    cases mget b k <;> simp [mget]
  | cons p t ih =>
    simp only [List.cons_append, mget, List.append_eq]
    rw [ih]
    cases mget b k <;> cases mget t k <;> simp

theorem mget_eq_none {β : Type} (l : List (String × β)) (k : String)
    (h : ∀ p ∈ l, p.1 ≠ k) : mget l k = none := by
  induction l with
  | nil => rfl
  | cons p t ih =>
    have hp : p.1 ≠ k := h p (by simp)
    have ht : mget t k = none := ih (fun q hq => h q (by simp [hq]))
    simp [mget, ht, hp]

theorem mem_entsOf {α β : Type} (g : α → List β) (l : List α) (p : β)
    (hp : p ∈ entsOf g l) : ∃ c ∈ l, p ∈ g c := by
  induction l with
  | nil => cases hp
  | cons b t ih =>
    simp only [entsOf, List.mem_append] at hp
    rcases hp with h | h
    · exact ⟨b, by simp, h⟩
    · obtain ⟨c, hc, hpc⟩ := ih h
      exact ⟨c, by simp [hc], hpc⟩

theorem foldl_step_append {α β : Type} (step : List β → α → List β) (g : α → List β)
    (h : ∀ m a, step m a = m ++ g a) (l : List α) :
    ∀ init : List β, List.foldl step init l = init ++ entsOf g l := by
  induction l with
  | nil => intro init; simp [entsOf]
  | cons a t ih =>
    intro init
    simp only [List.foldl_cons, entsOf, h, ih, List.append_assoc]

theorem mget_entsOf {α β : Type} (g : α → List (String × β)) (key : α → String)
    (hg : ∀ a, ∀ p ∈ g a, p.1 = key a) (l : List α)
    (hnd : (l.map key).Nodup) (a : α) (ha : a ∈ l) :
    mget (entsOf g l) (key a) = mget (g a) (key a) := by
  induction l with
  | nil => cases ha
  | cons b t ih =>
    rw [List.map_cons] at hnd
    have hbk : key b ∉ t.map key := (List.nodup_cons.mp hnd).1
    have hnd' : (t.map key).Nodup := (List.nodup_cons.mp hnd).2
    rcases List.mem_cons.mp ha with rfl | hat
    · have hnone : mget (entsOf g t) (key a) = none := by
        apply mget_eq_none
        intro p hp hk
        obtain ⟨c, hc, hpc⟩ := mem_entsOf g t p hp
        have hkc : key c = key a := by rw [← hg c p hpc, hk]
        exact hbk (hkc ▸ List.mem_map_of_mem key hc)
      simp only [entsOf]
      rw [mget_append, hnone]
    · have hne : key a ≠ key b := by
        intro hk
        exact hbk (hk ▸ List.mem_map_of_mem key hat)
      have hbnone : mget (g b) (key a) = none := by
        apply mget_eq_none
        intro p hp hk
        exact hne (by rw [← hk, hg b p hp])
      simp only [entsOf]
      rw [mget_append, ih hnd' hat]
      cases mget (g a) (key a) <;> simp [hbnone]

theorem recGet_cons_eq (p : String × GoVal) (t : Rec) (q : String) (h : p.1 = q) :
    recGet (p :: t) q = some p.2 := by
  have hb : (p.1 == q) = true := beq_iff_eq.mpr h
  simp [recGet, List.find?_cons, hb]

theorem recGet_cons_ne (p : String × GoVal) (t : Rec) (q : String) (h : p.1 ≠ q) :
    recGet (p :: t) q = recGet t q := by
  have hb : (p.1 == q) = false := beq_eq_false_iff_ne.mpr h
  simp [recGet, List.find?_cons, hb]

theorem recSet_cons_eq (p : String × GoVal) (t : Rec) (k : String) (v : GoVal)
    (h : p.1 = k) : recSet (p :: t) k v = (k, v) :: recSet t k v := by
  simp [recSet, h]

theorem recSet_cons_ne (p : String × GoVal) (t : Rec) (k : String) (v : GoVal)
    (h : p.1 ≠ k) : recSet (p :: t) k v = p :: recSet t k v := by
  simp [recSet, h]

theorem recGet_recSet_self (r : Rec) (k : String) (v w : GoVal)
    (h : recGet r k = some w) : recGet (recSet r k v) k = some v := by
  induction r with
  | nil => simp [recGet] at h
  | cons p t ih =>
    by_cases hp : p.1 = k
    · rw [recSet_cons_eq p t k v hp]
      exact recGet_cons_eq (k, v) _ k rfl
    · have h' : recGet t k = some w := by rwa [recGet_cons_ne p t k hp] at h
      rw [recSet_cons_ne p t k v hp, recGet_cons_ne p _ k hp]
      exact ih h'

theorem recGet_recSet_ne (r : Rec) (k q : String) (v : GoVal)
    (hne : q ≠ k) : recGet (recSet r k v) q = recGet r q := by
  induction r with
  | nil => rfl
  | cons p t ih =>
    by_cases hp : p.1 = k
    · rw [recSet_cons_eq p t k v hp]
      rw [recGet_cons_ne (k, v) _ q (fun h => hne h.symm)]
      rw [recGet_cons_ne p t q (fun h => hne (by rw [← h, hp]))]
      exact ih
    · rw [recSet_cons_ne p t k v hp]
      by_cases hq : p.1 = q
      · rw [recGet_cons_eq _ _ _ hq, recGet_cons_eq p t q hq]
      · rw [recGet_cons_ne _ _ _ hq, recGet_cons_ne p t q hq]
        exact ih

theorem setFormField_other (form : String → String) (m : Rec) (f : Field) (k : String)
    (hne : f.Name ≠ k) : recGet (setFormField form m f) k = recGet m k := by
  unfold setFormField
  by_cases hr : f.Readonly
  · simp [hr]
  · simp only [hr, if_false, Bool.false_eq_true]
    cases hg : recGet m f.Name with
    | none => rfl
    | some old =>
      by_cases ht : (f.Type' == "image" || f.Type' == "file") = true
      · simp [ht]
      · simp only [ht, if_false, Bool.false_eq_true]
        cases old <;> exact recGet_recSet_ne m f.Name k _ (fun h => hne h.symm)

theorem foldl_setFormField_other (form : String → String) (fields : List Field) (k : String)
    (h : ∀ f ∈ fields, f.Name ≠ k) (m : Rec) :
    recGet (List.foldl (fun m f => setFormField form m f) m fields) k = recGet m k := by
  induction fields generalizing m with
  | nil => rfl
  | cons f t ih =>
    have hf : f.Name ≠ k := h f (by simp)
    have ht : ∀ g ∈ t, g.Name ≠ k := fun g hg => h g (by simp [hg])
    simp only [List.foldl_cons]
    rw [ih ht, setFormField_other form m f k hf]

theorem recordAction_audits (u r i k d : String) (db : AdminDB) :
    (recordAction u r i k d db).audits = db.audits ++ [⟨u, r, i, k, d⟩] := rfl

theorem dbSave_audits (db : AdminDB) (m : Rec) : (dbSave db m).1.audits = db.audits := by
  unfold dbSave
  cases h : recGet m "ID" with
  | none => rfl
  | some v =>
    cases v with
    | vUint n => cases n <;> rfl
    | vStr s => rfl

theorem handleSave_audits_eq (fields : List Field) (zeroRec : Rec) (resName userName : String)
    (form : String → String) (db : AdminDB) :
    (handleSave fields zeroRec resName userName form db).audits =
      db.audits ++
        [AuditRec.mk userName resName
          (goValString ((recGet (dbSave db (List.foldl (fun m f => setFormField form m f)
            (if (form "ID" != "" && form "ID" != "0") = true
             then (dbFirst db (form "ID")).getD zeroRec else zeroRec) fields)).2 "ID").getD
              (GoVal.vStr "")))
          (if (form "ID" != "" && form "ID" != "0") = true then "Update" else "Create")
          "Saved from form"] := by
  unfold handleSave
  dsimp only
  rw [recordAction_audits, dbSave_audits]

theorem handleSave_appends (fields : List Field) (zeroRec : Rec) (resName userName : String)
    (form : String → String) (db : AdminDB) :
    ∃ a, (handleSave fields zeroRec resName userName form db).audits = db.audits ++ [a] :=
  ⟨_, handleSave_audits_eq fields zeroRec resName userName form db⟩

theorem ceil_div_spec (T P : Nat) (hP : 0 < P) :
    T ≤ ((T + P - 1) / P) * P ∧ ∀ m : Nat, T ≤ m * P → (T + P - 1) / P ≤ m := by
  constructor
  · have h1 : T + P - 1 ≤ P * ((T + P - 1) / P) + (P - 1) :=
      (Nat.div_le_iff_le_mul_add_pred hP).mp (Nat.le_refl _)
    have h2 : T + (P - 1) ≤ P * ((T + P - 1) / P) + (P - 1) := by
      have he : T + (P - 1) = T + P - 1 := by omega
      rw [he]; exact h1
    have h3 := Nat.le_of_add_le_add_right h2
    rw [Nat.mul_comm] at h3
    exact h3
  · intro m hm
    apply (Nat.div_le_iff_le_mul_add_pred hP).mpr
    have h4 : T + (P - 1) ≤ P * m + (P - 1) := by
      rw [Nat.mul_comm]
      exact Nat.add_le_add_right hm (P - 1)
    have he : T + P - 1 = T + (P - 1) := by omega
    rw [he]; exact h4

theorem wrapI64_eq_self (v : Int) (h0 : 0 ≤ v) (h1 : v ≤ 2 ^ 63 - 1) : wrapI64 v = v := by
  have hp : (2 : Int) ^ 63 = 9223372036854775808 := by norm_num
  rw [hp] at h1
  unfold wrapI64
  have he : (v + 9223372036854775808) % 18446744073709551616 = v + 9223372036854775808 :=
    Int.emod_eq_of_lt (by omega) (by omega)
  rw [he]
  omega

theorem buildQuery_drop_empty (k : String) (l1 l2 : List (String × String)) :
    buildQuery (l1 ++ (k, "") :: l2) = buildQuery (l1 ++ l2) := by
  induction l1 with
  | nil => simp [buildQuery]
  | cons p t ih =>
    cases p with
    | mk pk pv =>
      simp only [List.cons_append, buildQuery, List.append_eq]
      rw [ih]

/-! ## Claims -/

/-- C1: IsAllowed always permits the admin role, whatever the
Permission table holds; any other role is permitted exactly when a
Permission row matching the (role, resource, action) triple exists, no
wildcard or hierarchy matching, default deny. -/
theorem isAllowed_admin_bypass_and_exact_match (perms : List Permission)
    (role resource action : String) :
    IsAllowed perms "admin" resource action = true ∧
    (role ≠ "admin" →
      (IsAllowed perms role resource action = true ↔
        Permission.mk role resource action ∈ perms)) := by
  constructor
  · simp [IsAllowed]
  · intro hr
    simp only [IsAllowed, Bool.or_eq_true, List.any_eq_true]
    constructor
    · rintro (h | ⟨p, hp, hmatch⟩)
      · exact absurd (by simpa using h) hr
      · obtain ⟨p1, p2, p3⟩ := p
        simp only [Bool.and_eq_true, beq_iff_eq] at hmatch
        obtain ⟨⟨e1, e2⟩, e3⟩ := hmatch
        subst e1; subst e2; subst e3
        exact hp
    · intro hmem
      exact Or.inr ⟨⟨role, resource, action⟩, hmem, by simp⟩

/-- Witness for C1 at the TestIsAllowed scenario: the editor role is
governed by the exact-match rule, and the admin role passes even with a
Permission table that never mentions it. -/
theorem isAllowed_admin_bypass_and_exact_match_witness :
    ("editor" : String) ≠ "admin" ∧
    (IsAllowed permsEditor "editor" "Product" "edit" = true ↔
      Permission.mk "editor" "Product" "edit" ∈ permsEditor) ∧
    IsAllowed permsEditor "admin" "AnyResource" "anyAction" = true := by
  refine ⟨by decide, ?_, ?_⟩
  · exact (isAllowed_admin_bypass_and_exact_match permsEditor "editor" "Product" "edit").2
      (by decide)
  · exact (isAllowed_admin_bypass_and_exact_match permsEditor "guest" "AnyResource"
      "anyAction").1

/-- C3 (amended): for per-page size P greater than zero and total
count T, both below 2 to the 53 (the range where the float64
totalPages computation of the source is exact), the list metadata has
totalPages equal to the ceiling of T divided by P (stated as: it is
the least page count covering T), hasPrev exactly when the page
exceeds 1, hasNext exactly when the page is below totalPages, limit P,
the page clamped to at least 1 and taken from the request when at
least 1, and for T = 0 totalPages is 0 and hasNext is false.  The
fetch offset is (page-1)*P computed in wrapping 64-bit arithmetic, and
equals the mathematical product (page-1)*P exactly when that product
lies within the int64 range. -/
theorem renderList_pagination (pageParam : String) (P T : Nat) (hP : 0 < P)
    (hPf : P < 2 ^ 53) (hTf : T < 2 ^ 53) :
    (T ≤ (renderListMeta pageParam P T).totalPages * P ∧
      ∀ m : Nat, T ≤ m * P → (renderListMeta pageParam P T).totalPages ≤ m) ∧
    ((renderListMeta pageParam P T).hasPrev = true ↔ 1 < (renderListMeta pageParam P T).page) ∧
    ((renderListMeta pageParam P T).hasNext = true ↔
      (renderListMeta pageParam P T).page < ((renderListMeta pageParam P T).totalPages : Int)) ∧
    (renderListMeta pageParam P T).offset =
      wrapI64 (((renderListMeta pageParam P T).page - 1) * (P : Int)) ∧
    (((renderListMeta pageParam P T).page - 1) * (P : Int) ≤ 2 ^ 63 - 1 →
      (renderListMeta pageParam P T).offset =
        ((renderListMeta pageParam P T).page - 1) * (P : Int)) ∧
    (renderListMeta pageParam P T).limit = (P : Int) ∧
    1 ≤ (renderListMeta pageParam P T).page ∧
    (goAtoi pageParam < 1 → (renderListMeta pageParam P T).page = 1) ∧
    (1 ≤ goAtoi pageParam → (renderListMeta pageParam P T).page = goAtoi pageParam) ∧
    (T = 0 → (renderListMeta pageParam P T).totalPages = 0 ∧
      (renderListMeta pageParam P T).hasNext = false) := by
  have hpage1 : 1 ≤ (renderListMeta pageParam P T).page := by
    by_cases h : goAtoi pageParam < 1 <;> simp [renderListMeta, h] <;> omega
  have hoff : (renderListMeta pageParam P T).offset =
      wrapI64 (((renderListMeta pageParam P T).page - 1) * (P : Int)) := rfl
  refine ⟨?_, ?_, ?_, hoff, ?_, ?_, hpage1, ?_, ?_, ?_⟩
  · simpa only [renderListMeta] using ceil_div_spec T P hP
  · simp [renderListMeta]
  · simp [renderListMeta]
  · intro hle
    rw [hoff]
    have h0 : 0 ≤ ((renderListMeta pageParam P T).page - 1) * (P : Int) :=
      mul_nonneg (by omega) (Int.natCast_nonneg P)
    exact wrapI64_eq_self _ h0 hle
  · rfl
  · intro h; simp [renderListMeta, h]
  · intro h
    have hn : ¬ goAtoi pageParam < 1 := by omega
    simp [renderListMeta, hn]
  · intro hT
    subst hT
    have h0 : (0 + P - 1) / P = 0 := Nat.div_eq_of_lt (by omega)
    refine ⟨by simpa only [renderListMeta] using h0, ?_⟩
    simp only [renderListMeta, h0]
    rw [decide_eq_false_iff_not]
    by_cases h : goAtoi pageParam < 1 <;> simp [h] <;> omega

/-- Counterexample to C3 as stated: the page number 2 to the 63 minus
1 is accepted by Atoi and survives the clamp, and the 64-bit product
(page - 1) * 10 wraps: the computed offset is -20, not the
mathematical (page-1)*P. -/
theorem renderList_offset_wrap_cex :
    (renderListMeta "9223372036854775807" 10 0).page = 9223372036854775807 ∧
    (renderListMeta "9223372036854775807" 10 0).offset = -20 ∧
    ((renderListMeta "9223372036854775807" 10 0).page - 1) * 10 = 92233720368547758060 ∧
    (renderListMeta "9223372036854775807" 10 0).offset ≠
      ((renderListMeta "9223372036854775807" 10 0).page - 1) * 10 := by
  refine ⟨by decide, by decide, by decide, by decide⟩

/-- Witness for C3 at the spec scenario page=3, perPage=10,
totalCount=25, with the offset product in the int64 range. -/
theorem renderList_pagination_witness :
    ((0 : Nat) < 10 ∧ (25 : Nat) ≤ (renderListMeta "3" 10 25).totalPages * 10) ∧
    (renderListMeta "3" 10 25).offset =
      ((renderListMeta "3" 10 25).page - 1) * (10 : Int) := by
  have h := renderList_pagination "3" 10 25 (by decide) (by decide) (by decide)
  exact ⟨⟨by decide, h.1.1⟩, h.2.2.2.2.1 (by decide)⟩

/-- C4: the filter loop classifies a parameter by key prefix: q_ adds a
substring constraint on the suffix field, min_ an inclusive lower
bound, max_ an inclusive upper bound, and a parameter with the empty
value adds nothing, the query being the one built with the key
omitted.  The bound conditions hold inclusively on numeric
attributes. -/
theorem buildQuery_classify (k v fld : String) (rest l1 l2 : List (String × String))
    (r : Rec) (a : Nat) (hv : v ≠ "") :
    (goHasPre "q_" k = true →
      buildQuery ((k, v) :: rest) = Cond.like (goDropPre k "q_") v :: buildQuery rest) ∧
    (goHasPre "q_" k = false → goHasPre "min_" k = true →
      buildQuery ((k, v) :: rest) = Cond.ge (goDropPre k "min_") v :: buildQuery rest) ∧
    (goHasPre "q_" k = false → goHasPre "min_" k = false → goHasPre "max_" k = true →
      buildQuery ((k, v) :: rest) = Cond.le (goDropPre k "max_") v :: buildQuery rest) ∧
    buildQuery (l1 ++ (k, "") :: l2) = buildQuery (l1 ++ l2) ∧
    (recGet r fld = some (GoVal.vUint a) →
      ((condMatches r (Cond.ge fld v) = true ↔ goParseUint v ≤ a) ∧
        (condMatches r (Cond.le fld v) = true ↔ a ≤ goParseUint v))) := by
  refine ⟨?_, ?_, ?_, buildQuery_drop_empty k l1 l2, ?_⟩
  · intro hq
    simp [buildQuery, hv, hq]
  · intro hq hmin
    simp [buildQuery, hv, hq, hmin]
  · intro hq hmin hmax
    simp [buildQuery, hv, hq, hmin, hmax]
  · intro hget
    constructor <;> simp [condMatches, hget]

/-- Witness for C4: the min_age/max_age scenario of the spec and an
empty q_name value that leaves the query unchanged. -/
theorem buildQuery_classify_witness :
    buildQuery [("min_age", "18"), ("max_age", "30")] =
      [Cond.ge "age" "18", Cond.le "age" "30"] ∧
    buildQuery [("q_name", ""), ("min_age", "18")] = buildQuery [("min_age", "18")] := by
  constructor
  · have h1 := (buildQuery_classify "min_age" "18" "x" [("max_age", "30")] [] [] [] 0
      (by decide)).2.1 (by decide) (by decide)
    have h2 := (buildQuery_classify "max_age" "30" "x" [] [] [] [] 0
      (by decide)).2.2.1 (by decide) (by decide) (by decide)
    rw [h1, h2]
    decide
  · exact (buildQuery_classify "q_name" "v" "x" [] [] [("min_age", "18")] [] 0
      (by decide)).2.2.2.1

/-- C2: on an authenticated resource request, a (role, resource,
action) triple that IsAllowed rejects is terminally rejected as
Forbidden, for every action except exactly export, action,
collection_action and batch_action, each of which is dispatched to its
handler even when IsAllowed is false. -/
theorem serveHTTP_forbidden_gate (reg : Registry) (upath method role resName action : String)
    (h1 : goHasPre "/uploads/" upath = false)
    (h2 : upath ≠ "/login") (h3 : upath ≠ "/logout")
    (h4 : goHasSuf upath "/search" = false)
    (h5 : upath ≠ "") (h6 : upath ≠ "/")
    (hsplit : goSplit (goDropPre upath "/") '/' = [resName, action])
    (hpage : reg.PageNames.contains resName = false)
    (hres : reg.ResourceNames.contains resName = true)
    (hact : action ≠ "") :
    (IsAllowed reg.Perms role resName action = false →
      action ≠ "export" → action ≠ "action" → action ≠ "collection_action" →
      action ≠ "batch_action" →
      ServeHTTP reg upath method true role = Outcome.forbidden) ∧
    (action = "export" → ServeHTTP reg upath method true role = Outcome.doExport) ∧
    (action = "action" → ServeHTTP reg upath method true role = Outcome.doMemberAction) ∧
    (action = "collection_action" →
      ServeHTTP reg upath method true role = Outcome.doCollectionAction) ∧
    (action = "batch_action" →
      ServeHTTP reg upath method true role = Outcome.doBatchAction) := by
  have hserve : ServeHTTP reg upath method true role = dispatchGate reg role resName action := by
    simp only [ServeHTTP, h1, h2, h3, h4, h5, h6, hsplit, Bool.false_eq_true, if_false,
      Bool.not_true, or_self, dispatchParts, List.headD_cons, hpage, hres, actionOf, hact,
      if_neg, ite_false]
  refine ⟨?_, ?_, ?_, ?_, ?_⟩
  · intro hI hne1 hne2 hne3 hne4
    rw [hserve]
    have hb : (!(IsAllowed reg.Perms role resName action) && action != "export"
        && action != "action" && action != "collection_action"
        && action != "batch_action") = true := by
      simp [hI, bne_iff_ne, hne1, hne2, hne3, hne4]
    simp [dispatchGate, hb]
  · intro he; subst he; rw [hserve]; simp [dispatchGate]
  · intro he; subst he; rw [hserve]; simp [dispatchGate]
  · intro he; subst he; rw [hserve]; simp [dispatchGate]
  · intro he; subst he; rw [hserve]; simp [dispatchGate]

/-- Witness for C2: with an empty Permission table, a guest hitting
Product/delete is rejected while Product/export is dispatched to the
export handler. -/
theorem serveHTTP_forbidden_gate_witness :
    ServeHTTP regGate "/Product/delete" "GET" true "guest" = Outcome.forbidden ∧
    ServeHTTP regGate "/Product/export" "GET" true "guest" = Outcome.doExport := by
  constructor
  · exact (serveHTTP_forbidden_gate regGate "/Product/delete" "GET" "guest" "Product" "delete"
      (by decide) (by decide) (by decide) (by decide) (by decide) (by decide) (by decide)
      (by decide) (by decide) (by decide)).1
      (by decide) (by decide) (by decide) (by decide) (by decide)
  · exact (serveHTTP_forbidden_gate regGate "/Product/export" "GET" "guest" "Product" "export"
      (by decide) (by decide) (by decide) (by decide) (by decide) (by decide) (by decide)
      (by decide) (by decide) (by decide)).2.1 rfl

/-- C10: an authenticated request whose first path segment names a
registered custom Page is dispatched to the page handler before any
resource lookup or IsAllowed check, for every role, every Permission
table and even when a Resource shares the name. -/
theorem serveHTTP_page_shadow (reg : Registry) (upath method role pageName : String)
    (restParts : List String)
    (h1 : goHasPre "/uploads/" upath = false)
    (h2 : upath ≠ "/login") (h3 : upath ≠ "/logout")
    (h4 : goHasSuf upath "/search" = false)
    (h5 : upath ≠ "") (h6 : upath ≠ "/")
    (hsplit : goSplit (goDropPre upath "/") '/' = pageName :: restParts)
    (hpage : reg.PageNames.contains pageName = true) :
    ServeHTTP reg upath method true role = Outcome.pageHandler pageName := by
  simp only [ServeHTTP, h1, h2, h3, h4, h5, h6, hsplit, Bool.false_eq_true, if_false,
    Bool.not_true, or_self, dispatchParts, List.headD_cons, hpage, if_true]

/-- Witness for C10: a page and a resource both named Product, an empty
Permission table under which IsAllowed denies a guest the Product list,
and yet the guest request reaches the page handler. -/
theorem serveHTTP_page_shadow_witness :
    IsAllowed regShadow.Perms "guest" "Product" "list" = false ∧
    ServeHTTP regShadow "/Product" "GET" true "guest" = Outcome.pageHandler "Product" := by
  refine ⟨by decide, ?_⟩
  exact serveHTTP_page_shadow regShadow "/Product" "GET" "guest" "Product" []
    (by decide) (by decide) (by decide) (by decide) (by decide) (by decide) (by decide)
    (by decide)

theorem dbSave_create (db : AdminDB) (m : Rec) (h : recGet m "ID" = some (GoVal.vUint 0)) :
    dbSave db m =
      (⟨db.rows ++ [recSet m "ID" (GoVal.vUint db.nextId)], db.nextId + 1, db.audits⟩,
        recSet m "ID" (GoVal.vUint db.nextId)) := by
  unfold dbSave
  rw [h]

theorem dbSave_update (db : AdminDB) (m : Rec) (n : Nat)
    (h : recGet m "ID" = some (GoVal.vUint (Nat.succ n))) :
    dbSave db m =
      (⟨db.rows.map (fun r => if rowHasID r (Nat.succ n) then m else r), db.nextId, db.audits⟩,
        m) := by
  unfold dbSave
  rw [h]

/-- C5: a Save with an absent or "0" identifier creates a new record
and appends an audit record of kind Create carrying the assigned
identifier; a Save with an existing identifier updates that record in
place and appends an audit record of kind Update; every Save appends
exactly one audit record. -/
theorem handleSave_create_update (fields : List Field) (zeroRec : Rec)
    (resName userName : String) (form : String → String) (db : AdminDB)
    (hzero : recGet zeroRec "ID" = some (GoVal.vUint 0))
    (hfid : ∀ f ∈ fields, f.Name ≠ "ID") :
    (∃ a, (handleSave fields zeroRec resName userName form db).audits = db.audits ++ [a]) ∧
    ((form "ID" = "" ∨ form "ID" = "0") →
      (∃ newRec, (handleSave fields zeroRec resName userName form db).rows =
        db.rows ++ [newRec]) ∧
      (handleSave fields zeroRec resName userName form db).audits =
        db.audits ++ [⟨userName, resName, toString db.nextId, "Create", "Saved from form"⟩]) ∧
    (∀ row : Rec, form "ID" ≠ "" → form "ID" ≠ "0" →
      dbFirst db (form "ID") = some row → goParseUint (form "ID") ≠ 0 →
      (∃ updRec, (handleSave fields zeroRec resName userName form db).rows =
        db.rows.map (fun r => if rowHasID r (goParseUint (form "ID")) then updRec else r)) ∧
      (handleSave fields zeroRec resName userName form db).audits =
        db.audits ++ [⟨userName, resName, toString (goParseUint (form "ID")), "Update",
          "Saved from form"⟩]) := by
  refine ⟨handleSave_appends fields zeroRec resName userName form db, ?_, ?_⟩
  · intro hid
    have hb : (form "ID" != "" && form "ID" != "0") = false := by
      rcases hid with h | h <;> simp [h]
    unfold handleSave
    dsimp only
    simp only [hb, Bool.false_eq_true, if_false]
    have hm1 : recGet (List.foldl (fun m f => setFormField form m f) zeroRec fields) "ID" =
        some (GoVal.vUint 0) := by
      rw [foldl_setFormField_other form fields "ID" hfid zeroRec]
      exact hzero
    rw [dbSave_create db _ hm1]
    have hnew : recGet (recSet (List.foldl (fun m f => setFormField form m f) zeroRec fields)
        "ID" (GoVal.vUint db.nextId)) "ID" = some (GoVal.vUint db.nextId) :=
      recGet_recSet_self _ "ID" _ _ hm1
    constructor
    · exact ⟨_, rfl⟩
    · rw [recordAction_audits]
      simp [hnew, goValString]
  · intro row hne1 hne2 hfound hn0
    have hb : (form "ID" != "" && form "ID" != "0") = true := by
      simp [bne_iff_ne, hne1, hne2]
    have hpred : rowHasID row (goParseUint (form "ID")) = true := by
      unfold dbFirst at hfound
      have hp := List.find?_some hfound
      simpa using hp
    have hrowid : recGet row "ID" = some (GoVal.vUint (goParseUint (form "ID"))) := by
      unfold rowHasID at hpred
      cases hg : recGet row "ID" with
      | none => rw [hg] at hpred; simp at hpred
      | some w =>
        rw [hg] at hpred
        cases w with
        | vStr s => simp at hpred
        | vUint k =>
          simp only [beq_iff_eq] at hpred
          rw [hpred]
    obtain ⟨n, hn⟩ : ∃ n, goParseUint (form "ID") = Nat.succ n :=
      Nat.exists_eq_succ_of_ne_zero hn0
    unfold handleSave
    dsimp only
    simp only [hb, if_true]
    rw [hfound]
    simp only [Option.getD_some]
    have hm1 : recGet (List.foldl (fun m f => setFormField form m f) row fields) "ID" =
        some (GoVal.vUint (Nat.succ n)) := by
      rw [foldl_setFormField_other form fields "ID" hfid row, hrowid, hn]
    rw [dbSave_update db _ n hm1]
    have hnew : recGet (List.foldl (fun m f => setFormField form m f) row fields) "ID" =
        some (GoVal.vUint (goParseUint (form "ID"))) := by
      rw [hm1, hn]
    constructor
    · refine ⟨List.foldl (fun m f => setFormField form m f) row fields, ?_⟩
      rw [hn]
      simp [recordAction]
    · rw [recordAction_audits]
      simp [hnew, goValString]

/-- Witness for C5: a create on an empty database appends the Create
audit record under the assigned identifier 1; an update of the stored
row with identifier 7 appends the Update audit record. -/
theorem handleSave_create_update_witness :
    (∃ a, (handleSave [fName, fQty] zeroProduct "Product" "alice" formCreate dbEmpty).audits =
      dbEmpty.audits ++ [a]) ∧
    (handleSave [fName, fQty] zeroProduct "Product" "alice" formCreate dbEmpty).audits =
      [⟨"alice", "Product", "1", "Create", "Saved from form"⟩] ∧
    (handleSave [fName, fQty] zeroProduct "Product" "alice" formUpdate dbOne).audits =
      [⟨"alice", "Product", "7", "Update", "Saved from form"⟩] := by
  have h1 := handleSave_create_update [fName, fQty] zeroProduct "Product" "alice" formCreate
    dbEmpty (by decide) (by decide)
  have h2 := handleSave_create_update [fName, fQty] zeroProduct "Product" "alice" formUpdate
    dbOne (by decide) (by decide)
  refine ⟨h1.1, ?_, ?_⟩
  · have hc := (h1.2.1 (Or.inl (by decide))).2
    rw [hc]
    decide
  · have hu := (h2.2.2 storedProduct (by decide) (by decide) (by decide) (by decide)).2
    rw [hu]
    decide

/-- C6: for a BelongsTo association on the form view, a target
collection counted strictly below the search threshold is eagerly
expanded: every target row is projected as a selectable option; at or
above the threshold nothing is fetched and the association carries the
target resource only, with no options. -/
theorem renderForm_belongsTo (assocs : List Association) (fields : List Field)
    (resFields : String → List Field) (table : String → List Rec) (threshold : Int)
    (assoc : Association)
    (hmem : assoc ∈ assocs)
    (hbt : assoc.Type' = "BelongsTo")
    (hnd : (assocs.map Association.Name).Nodup)
    (hfields : ∀ f ∈ fields,
      ¬(f.Searchable = true ∧ f.SearchResource ≠ "" ∧ f.Name = assoc.Name)) :
    (((table assoc.ResourceName).length : Int) < threshold →
      mget (renderFormAssocs assocs fields resFields table threshold) assoc.Name =
        some ⟨assoc.ResourceName,
          sliceToMap (resFields assoc.ResourceName) (table assoc.ResourceName)⟩) ∧
    (threshold ≤ ((table assoc.ResourceName).length : Int) →
      mget (renderFormAssocs assocs fields resFields table threshold) assoc.Name =
        some ⟨assoc.ResourceName, []⟩) := by
  have hg : ∀ a : Association, ∀ p ∈ assocEntry resFields table threshold a,
      p.1 = a.Name := by
    intro a p hp
    unfold assocEntry at hp
    by_cases hb : a.Type' = "BelongsTo"
    · rw [if_pos hb] at hp
      by_cases hc : ((table a.ResourceName).length : Int) < threshold
      · rw [if_pos hc] at hp
        rw [List.mem_singleton.mp hp]
      · rw [if_neg hc] at hp
        rw [List.mem_singleton.mp hp]
    · rw [if_neg hb] at hp
      cases hp
  have hsearch : mget (entsOf searchEntry fields) assoc.Name = none := by
    apply mget_eq_none
    intro p hp hk
    obtain ⟨f, hf, hpf⟩ := mem_entsOf searchEntry fields p hp
    unfold searchEntry at hpf
    by_cases hs : (f.Searchable && f.SearchResource != "") = true
    · rw [if_pos hs] at hpf
      have hpn : p.1 = f.Name := by rw [List.mem_singleton.mp hpf]
      rw [Bool.and_eq_true] at hs
      exact hfields f hf ⟨hs.1, bne_iff_ne.mp hs.2, by rw [← hpn, hk]⟩
    · rw [if_neg hs] at hpf
      cases hpf
  have hfold : renderFormAssocs assocs fields resFields table threshold =
      entsOf (assocEntry resFields table threshold) assocs ++ entsOf searchEntry fields := by
    unfold renderFormAssocs
    rw [foldl_step_append (fun m a => m ++ assocEntry resFields table threshold a)
      (assocEntry resFields table threshold) (fun _ _ => rfl) assocs []]
    rw [List.nil_append]
  have hmain := mget_entsOf (assocEntry resFields table threshold) Association.Name hg
    assocs hnd assoc hmem
  constructor
  · intro hlt
    rw [hfold, mget_append, hsearch]
    dsimp only
    rw [hmain]
    unfold assocEntry
    rw [if_pos hbt, if_pos hlt]
    simp [mget]
  · intro hge
    rw [hfold, mget_append, hsearch]
    dsimp only
    rw [hmain]
    unfold assocEntry
    rw [if_pos hbt, if_neg (Int.not_lt.mpr hge)]
    simp [mget]

/-- Witness for C6: two authors against thresholds 5 (below: both rows
expanded as options) and 2 (at the threshold: no options). -/
theorem renderForm_belongsTo_witness :
    mget (renderFormAssocs [assocAuthor] [fName] resFieldsAuthors tableAuthors 5) "author" =
      some ⟨"authors", sliceToMap (resFieldsAuthors "authors") (tableAuthors "authors")⟩ ∧
    mget (renderFormAssocs [assocAuthor] [fName] resFieldsAuthors tableAuthors 2) "author" =
      some ⟨"authors", []⟩ := by
  have h5 := renderForm_belongsTo [assocAuthor] [fName] resFieldsAuthors tableAuthors 5
    assocAuthor (List.Mem.head _) rfl (by decide) (by decide)
  have h2 := renderForm_belongsTo [assocAuthor] [fName] resFieldsAuthors tableAuthors 2
    assocAuthor (List.Mem.head _) rfl (by decide) (by decide)
  exact ⟨h5.1 (by decide), h2.2 (by decide)⟩

/-- C7 (amended): for a writable uint-kind field the submitted string
is coerced through ParseUint with the error discarded: a syntactically
malformed value (empty or holding a non-digit) coerces to zero, a
well-formed value in range parses to its value, and a well-formed value
out of the 64-bit range coerces to the maximum uint64 value rather than
zero; in every case the Save proceeds and appends its audit record. -/
theorem save_numeric_coercion (f : Field) (form : String → String) (m : Rec) (old : Nat)
    (s : String) (fields : List Field) (zeroRec : Rec) (resName userName : String)
    (db : AdminDB)
    (hro : f.Readonly = false)
    (him : f.Type' ≠ "image") (hfi : f.Type' ≠ "file")
    (hold : recGet m f.Name = some (GoVal.vUint old)) :
    recGet (setFormField form m f) f.Name =
      some (GoVal.vUint (goParseUint (form f.Name))) ∧
    (goDigitsOk s = false → goParseUint s = 0) ∧
    (goParseUintOk s = true → goParseUint s = digitsVal s.data) ∧
    (goDigitsOk s = true → goParseUintOk s = false → goParseUint s = 2 ^ 64 - 1) ∧
    (∃ a, (handleSave fields zeroRec resName userName form db).audits = db.audits ++ [a]) := by
  refine ⟨?_, ?_, ?_, ?_, handleSave_appends fields zeroRec resName userName form db⟩
  · have h1 : (f.Type' == "image") = false := beq_eq_false_iff_ne.mpr him
    have h2 : (f.Type' == "file") = false := beq_eq_false_iff_ne.mpr hfi
    unfold setFormField
    rw [hold]
    simp only [hro, Bool.false_eq_true, if_false, h1, h2, Bool.or_self, Bool.or_false,
      Bool.false_or]
    exact recGet_recSet_self m f.Name _ _ hold
  · intro h
    simp [goParseUint, h]
  · intro h
    rw [goParseUintOk, Bool.and_eq_true] at h
    unfold goParseUint
    rw [if_pos h.1, if_pos (of_decide_eq_true h.2)]
  · intro h1 h2
    rw [goParseUintOk, h1, Bool.true_and] at h2
    have hnl := of_decide_eq_false h2
    unfold goParseUint
    rw [if_pos h1, if_neg hnl]

/-- Counterexample to C7 as stated: the submitted value 2 to the 64,
whose ParseUint fails with a range error, sets the uint field to the
maximum uint64 value, not zero, and the saved row stores that value. -/
theorem save_numeric_range_cex :
    goParseUintOk "18446744073709551616" = false ∧
    recGet (setFormField formBig zeroProduct fQty) "Qty" =
      some (GoVal.vUint 18446744073709551615) ∧
    GoVal.vUint 18446744073709551615 ≠ GoVal.vUint 0 ∧
    (handleSave [fQty] zeroProduct "Product" "alice" formBig dbEmpty).rows =
      [[("ID", GoVal.vUint 1), ("Name", GoVal.vStr ""),
        ("Qty", GoVal.vUint 18446744073709551615)]] := by
  refine ⟨by decide, by decide, by decide, by decide⟩

/-- Witness for C7 at an in-range value 4 and a malformed value abc. -/
theorem save_numeric_coercion_witness :
    recGet (setFormField formCreate zeroProduct fQty) fQty.Name =
      some (GoVal.vUint (goParseUint (formCreate fQty.Name))) ∧
    goParseUint "abc" = 0 := by
  have h := save_numeric_coercion fQty formCreate zeroProduct 0 "abc" [] zeroProduct "Product"
    "alice" dbEmpty rfl (by decide) (by decide) (by decide)
  exact ⟨h.1, h.2.1 (by decide)⟩

/-- C8 (amended): the export output is the field labels in declaration
order followed by one row per record of the entire backing collection,
each cell the raw attribute value; the request is not consulted, so it
equals the filtered serialization only for an empty condition set. -/
theorem handleExport_shape (fields : List Field) (rows : List Rec) :
    (handleExport fields rows).length = rows.length + 1 ∧
    (handleExport fields rows).headD [] = fields.map (fun f => f.Label) ∧
    (∀ i : Nat, (handleExport fields rows)[i + 1]? =
      (rows[i]?).map (fun r => fields.map (fun f => exportCell r f))) ∧
    handleExport fields rows = exportFilteredSpec fields [] rows := by
  refine ⟨?_, rfl, ?_, ?_⟩
  · simp [handleExport]
  · intro i
    simp [handleExport]
  · unfold handleExport exportFilteredSpec filterRows
    simp

/-- Counterexample to C8 as stated: under the current filter q_Name=abc
only one of the two stored rows matches, yet the export output is not
the filtered serialization: it carries both rows. -/
theorem handleExport_ignores_filters_cex :
    (filterRows (buildQuery paramsExport) rowsExport).length = 1 ∧
    (handleExport [fName] rowsExport).length = 3 ∧
    handleExport [fName] rowsExport ≠
      exportFilteredSpec [fName] (buildQuery paramsExport) rowsExport := by
  refine ⟨by decide, by decide, by decide⟩

/-- C9 (amended): projecting a record for rendering places, for every
decorated field other than one named ID, the decorator applied to the
raw attribute value into the rendered map; the record itself is left
untouched.  A field named ID is re-set to the raw identifier after the
loop. -/
theorem itemToMap_decorator_applied (fields : List Field) (item : Rec) (f : Field)
    (d : GoVal → GoVal) (v : GoVal)
    (hnd : (fields.map Field.Name).Nodup)
    (hmem : f ∈ fields)
    (hdec : f.Decorator = some d)
    (hid : f.Name ≠ "ID")
    (hval : recGet item f.Name = some v) :
    mget (itemToMap fields item) f.Name = some (d v) := by
  have hstep : ∀ (m : List (String × GoVal)) (f : Field),
      (match recGet item f.Name with
       | some v =>
         (match f.Decorator with
          | some d => m ++ [(f.Name, d v)]
          | none => m ++ [(f.Name, v)])
       | none => m) = m ++ itemEntry item f := by
    intro m g
    unfold itemEntry
    cases recGet item g.Name with
    | none => simp
    | some w => cases g.Decorator <;> simp
  have hsplitmap : itemToMap fields item =
      entsOf (itemEntry item) fields ++ idEntry item := by
    unfold itemToMap
    rw [foldl_step_append _ (itemEntry item) hstep fields [], List.nil_append]
  have hidnone : mget (idEntry item) f.Name = none := by
    apply mget_eq_none
    intro p hp hk
    unfold idEntry at hp
    cases hi : recGet item "ID" with
    | none => rw [hi] at hp; cases hp
    | some w =>
      rw [hi] at hp
      have hpe : p = ("ID", w) := List.mem_singleton.mp hp
      exact hid (by rw [← hk, hpe])
  have hg : ∀ a : Field, ∀ p ∈ itemEntry item a, p.1 = a.Name := by
    intro a p hp
    unfold itemEntry at hp
    cases ha : recGet item a.Name with
    | none => rw [ha] at hp; cases hp
    | some w =>
      rw [ha] at hp
      rw [List.mem_singleton.mp hp]
  have hmain := mget_entsOf (itemEntry item) Field.Name hg fields hnd f hmem
  rw [hsplitmap, mget_append, hidnone]
  dsimp only
  rw [hmain]
  unfold itemEntry
  rw [hval, hdec]
  simp [mget]

/-- Counterexample to C9 as stated: a decorated field named ID is
overwritten with the raw identifier after projection, so the rendered
value is not the decorator applied to the raw value. -/
theorem itemToMap_id_decorator_cex :
    fldID.Decorator = some incrVal ∧
    recGet itemIdOnly "ID" = some (GoVal.vUint 5) ∧
    mget (itemToMap [fldID] itemIdOnly) "ID" = some (GoVal.vUint 5) ∧
    mget (itemToMap [fldID] itemIdOnly) "ID" ≠ some (incrVal (GoVal.vUint 5)) := by
  refine ⟨rfl, by decide, by decide, by decide⟩

/-- Witness for C9: the doubled price decorator is applied in the
rendered map. -/
theorem itemToMap_decorator_applied_witness :
    mget (itemToMap [fldPrice, fName] itemPriced) fldPrice.Name =
      some (dblVal (GoVal.vUint 10)) := by
  exact itemToMap_decorator_applied [fldPrice, fName] itemPriced fldPrice dblVal
    (GoVal.vUint 10) (by decide) (List.Mem.head _) rfl (by decide) (by decide)

end GoAdmin
